import Mathlib

/-!
# learning_ldd: the proc-file driver of `ldd.c`

A shallow embedding of the two `proc_ops` handlers of `src/ldd.c`,
`inpyjama_read` and `inpyjama_saura_write`, and of the global buffer
`char user_message[128]` they share.

Modelling conventions.

* A `char` is a value below 256; the buffer is the list of its 128 bytes.
* `size_t` values (`count`, `len`) are natural numbers and `ssize_t` results are
  integers. No arithmetic of the handlers can overflow: the only sum,
  `*offset += len`, is taken when `*offset < len` and `len` is at most 127.
* `*offset` is a file position. The VFS rejects a negative position before it
  calls a handler, so positions are natural numbers; on that range the signed
  and the unsigned reading of the C comparison `*offset >= len` agree.
* A user-space region is the list of the bytes of it that can be accessed,
  starting at the user pointer. A user copy of `n` bytes into or out of a region
  with fewer than `n` accessible bytes transfers the accessible ones and
  reports the rest as not copied, as `copy_to_user` and `copy_from_user` do.
* `strlen` on a buffer with no NUL among its bytes runs off the end of the
  array; the model returns `none` there, and a handler that calls it is
  undefined (`none`) as well.
* `printk` only logs and is left out.
-/

set_option maxRecDepth 8000

namespace LearningLdd

/-- A C `char`. -/
abbrev Byte := Fin 256

/-- The global `char user_message[128]` at module load: static storage is
zero-initialised. -/
def user_message_init : List Byte := List.replicate 128 0

/-- C `strlen`: the index of the first NUL byte, `none` when the list holds no
NUL (the C function would then read past the array). -/
def strlen : List Byte → Option Nat
  | [] => none
  | b :: rest => if b = 0 then some 0 else (strlen rest).map (· + 1)

/-- Kernel `copy_to_user(dst, src, n)`: stores the first `n` bytes of `src` at
the start of the user region `dst`, as far as the region is accessible. Gives
the number of bytes that could not be copied and the region afterwards. -/
def copy_to_user (dst src : List Byte) (n : Nat) : Nat × List Byte :=
  let k := min n dst.length
  (n - k, src.take k ++ dst.drop k)

/-- Kernel `copy_from_user(dst, src, n)`: stores the first `n` bytes of the user
region `src` at the start of `dst`, as far as the region is accessible; the
kernel pads the part of the `n` bytes it could not fetch with zero bytes. Gives
the number of bytes that could not be copied and `dst` afterwards. -/
def copy_from_user (dst src : List Byte) (n : Nat) : Nat × List Byte :=
  let k := min n src.length
  (n - k, src.take k ++ List.replicate (n - k) 0 ++ dst.drop n)

/-- One call of a user-copy primitive: the size asked for and the number of
bytes it reported as not copied. -/
structure UserCopy where
  n : Nat
  uncopied : Nat
  deriving DecidableEq, Repr

/-- Bytes a recorded user copy actually transferred (none without a call). -/
def UserCopy.transferred : Option UserCopy → Nat
  | none => 0
  | some c => c.n - c.uncopied

/-- What a call of `inpyjama_read` leaves behind: the value returned, the
global buffer, the cursor `*offset`, the destination region, and the
`copy_to_user` call it made, if any. -/
structure ReadOut where
  ret : Int
  user_message : List Byte
  offset : Nat
  user_space_buffer : List Byte
  copy : Option UserCopy
  deriving DecidableEq, Repr

/-- What a call of `inpyjama_saura_write` leaves behind: the value returned, the
global buffer, the cursor `*offset`, and the `copy_from_user` call it made, if
any. -/
structure WriteOut where
  ret : Int
  user_message : List Byte
  offset : Nat
  copy : Option UserCopy
  deriving DecidableEq, Repr

/-- The handler `inpyjama_read` (ldd.c, lines 18-48). `count` is received and
never used; the value of `copy_to_user` is stored in `result` and never
tested. -/
def inpyjama_read (user_message user_space_buffer : List Byte) (count offset : Nat) :
    Option ReadOut :=
  match strlen user_message with
  | none => none
  | some len =>
    if offset ≥ len then
      some { ret := 0
             user_message := user_message.set 0 0
             offset := offset
             user_space_buffer := user_space_buffer
             copy := none }
    else
      let result := copy_to_user user_space_buffer user_message len
      some { ret := (len : Int)
             user_message := user_message
             offset := offset + len
             user_space_buffer := result.2
             copy := some ⟨len, result.1⟩ }

/-- The handler `inpyjama_saura_write` (ldd.c, lines 51-69). -/
def inpyjama_saura_write (user_message user_space_buffer : List Byte) (count offset : Nat) :
    WriteOut :=
  if offset ≥ count then
    { ret := 0, user_message := user_message, offset := offset, copy := none }
  else if count > 127 then
    { ret := -1, user_message := user_message, offset := offset, copy := none }
  else
    let res := copy_from_user user_message user_space_buffer count
    if res.1 > 0 then
      { ret := -1, user_message := res.2, offset := offset, copy := some ⟨count, res.1⟩ }
    else
      { ret := (count : Int), user_message := res.2, offset := offset,
        copy := some ⟨count, res.1⟩ }

/-- A call of one of the two handlers with its arguments: the user region, the
byte count and the cursor. -/
inductive Call where
  | read (user_space_buffer : List Byte) (count offset : Nat)
  | write (user_space_buffer : List Byte) (count offset : Nat)
  deriving DecidableEq, Repr

/-- The buffer after one handler call (`none` when the call is undefined). -/
def step (user_message : List Byte) : Call → Option (List Byte)
  | .read dst count offset =>
    (inpyjama_read user_message dst count offset).map (·.user_message)
  | .write src count offset =>
    some (inpyjama_saura_write user_message src count offset).user_message

/-- The buffer after a sequence of handler calls, in order. -/
def run (user_message : List Byte) : List Call → Option (List Byte)
  | [] => some user_message
  | c :: rest =>
    match step user_message c with
    | none => none
    | some m => run m rest

/-- The text of a C string literal as bytes. -/
def bytes (s : String) : List Byte := s.toList.map (fun c => Fin.ofNat c.toNat)

/-- A 128-byte buffer holding the given bytes followed by zero bytes. -/
def padded (l : List Byte) : List Byte := l ++ List.replicate (128 - l.length) 0

/-- The invariant of the buffer: 128 bytes, the last of them NUL. -/
def Terminated (m : List Byte) : Prop := m.length = 128 ∧ m[127]? = some 0

/-! ## Facts about `strlen` and the user-copy primitives -/

theorem strlen_cons_zero (rest : List Byte) : strlen (0 :: rest) = some 0 := by
  simp [strlen]

theorem strlen_cons_ne {b : Byte} (hb : b ≠ 0) (rest : List Byte) :
    strlen (b :: rest) = (strlen rest).map (· + 1) := by
  simp [strlen, hb]

/-- The value of `strlen` is the index of a NUL byte inside the list, and no
byte before it is NUL. -/
theorem strlen_spec {m : List Byte} {len : Nat} (h : strlen m = some len) :
    len < m.length ∧ m[len]? = some 0 ∧ ∀ b ∈ m.take len, b ≠ 0 := by
  induction m generalizing len with
  | nil => simp [strlen] at h
  | cons b rest ih =>
    by_cases hb : b = 0
    · subst hb
      rw [strlen_cons_zero] at h
      cases h
      simp
    · rw [strlen_cons_ne hb] at h
      cases hr : strlen rest with
      | none => simp [hr] at h
      | some k =>
        simp [hr] at h
        subst h
        obtain ⟨h1, h2, h3⟩ := ih hr
        refine ⟨by simpa using h1, by simpa using h2, ?_⟩
        intro x hx
        simp only [List.take_succ_cons, List.mem_cons] at hx
        rcases hx with rfl | hx
        · exact hb
        · exact h3 x hx

/-- A list with a NUL byte at index `i` has a string length, at most `i`. -/
theorem strlen_of_nul {m : List Byte} {i : Nat} (h : m[i]? = some 0) :
    ∃ len, strlen m = some len ∧ len ≤ i := by
  induction m generalizing i with
  | nil => simp at h
  | cons b rest ih =>
    by_cases hb : b = 0
    · subst hb
      exact ⟨0, strlen_cons_zero rest, Nat.zero_le _⟩
    · cases i with
      | zero => simp at h; exact absurd h hb
      | succ j =>
        simp at h
        obtain ⟨k, hk, hkj⟩ := ih h
        exact ⟨k + 1, by simp [strlen_cons_ne hb, hk], by omega⟩

/-- Bytes without a NUL in front of a list shift its string length. -/
theorem strlen_append {a : List Byte} (ha : ∀ b ∈ a, b ≠ 0) (rest : List Byte) :
    strlen (a ++ rest) = (strlen rest).map (· + a.length) := by
  induction a with
  | nil => simp
  | cons b a ih =>
    have hb : b ≠ 0 := ha b (List.mem_cons_self _ _)
    have ha2 : ∀ x ∈ a, x ≠ 0 := fun x hx => ha x (List.mem_cons_of_mem _ hx)
    rw [List.cons_append, strlen_cons_ne hb, ih ha2]
    cases strlen rest <;> simp
    omega

/-- After `user_message[0] = 0` the string is empty. -/
theorem strlen_set_zero {m : List Byte} (h : m ≠ []) : strlen (m.set 0 0) = some 0 := by
  cases m with
  | nil => exact absurd rfl h
  | cons b rest => simp [strlen]

/-- A user copy into an accessible destination: nothing is left uncopied and the
first `n` bytes of the destination are the first `n` bytes of the source. -/
theorem copy_to_user_ok (dst src : List Byte) {n : Nat} (h : n ≤ dst.length) :
    copy_to_user dst src n = (0, src.take n ++ dst.drop n) := by
  simp [copy_to_user, Nat.min_eq_left h]

/-- A user copy out of an accessible source: nothing is left uncopied, the first
`n` bytes of the kernel buffer are the source bytes and the rest is kept. -/
theorem copy_from_user_ok (dst src : List Byte) {n : Nat} (h : n ≤ src.length) :
    copy_from_user dst src n = (0, src.take n ++ dst.drop n) := by
  simp [copy_from_user, Nat.min_eq_left h]

/-- A user copy of at most `dst.length` bytes keeps the size of the kernel
buffer, whether or not the source is accessible. -/
theorem copy_from_user_length (dst src : List Byte) {n : Nat} (h : n ≤ dst.length) :
    (copy_from_user dst src n).2.length = dst.length := by
  simp [copy_from_user]
  omega

/-- A user copy of `n` bytes leaves the kernel bytes from index `n` on alone. -/
theorem copy_from_user_drop (dst src : List Byte) (n : Nat) :
    (copy_from_user dst src n).2.drop n = dst.drop n := by
  have hlen : (src.take (min n src.length) ++ List.replicate (n - min n src.length) 0).length
      = n := by
    simp
  simp only [copy_from_user]
  rw [List.drop_append_eq_append_drop]
  simp [hlen]

/-! ## The write handler -/

/-- C2. A write of more than 127 bytes whose cursor is below `count` (so the
offset check, which comes first, lets it through) returns -1, makes no
`copy_from_user` call, so never touches the source, whatever the source is, and
leaves the buffer and the cursor as they were. -/
theorem write_oversized_rejected (user_message user_space_buffer : List Byte)
    (count offset : Nat) (hcount : count > 127) (hoff : offset < count) :
    inpyjama_saura_write user_message user_space_buffer count offset =
      { ret := -1, user_message := user_message, offset := offset, copy := none } := by
  simp [inpyjama_saura_write, Nat.not_le.mpr hoff, hcount]

/-- C2 at a request of 200 bytes over the buffer holding "hello". -/
theorem write_oversized_rejected_witness :
    (200 > 127 ∧ 0 < 200) ∧
    inpyjama_saura_write (padded (bytes "hello")) (List.replicate 200 65) 200 0 =
      { ret := -1, user_message := padded (bytes "hello"), offset := 0, copy := none } :=
  ⟨by decide, write_oversized_rejected _ _ 200 0 (by decide) (by decide)⟩

/-- C6. A write of `count` bytes with `offset < count ≤ 127` from a source with
`count` accessible bytes returns `count`; afterwards the buffer still has 128
bytes, its first `count` bytes are the source bytes, its bytes from index
`count` on are the old ones (no NUL is stored behind the data), and the cursor
is where it was. -/
theorem write_success_effect (user_message user_space_buffer : List Byte)
    (count offset : Nat) (hlen : user_message.length = 128)
    (hoff : offset < count) (hcount : count ≤ 127)
    (hsrc : count ≤ user_space_buffer.length) :
    let w := inpyjama_saura_write user_message user_space_buffer count offset
    w.ret = (count : Int) ∧
    w.user_message.length = 128 ∧
    w.user_message.take count = user_space_buffer.take count ∧
    w.user_message.drop count = user_message.drop count ∧
    (∀ i, count ≤ i → w.user_message[i]? = user_message[i]?) ∧
    w.offset = offset ∧
    w.copy = some ⟨count, 0⟩ := by
  have hw : inpyjama_saura_write user_message user_space_buffer count offset =
      { ret := (count : Int)
        user_message := user_space_buffer.take count ++ user_message.drop count
        offset := offset
        copy := some ⟨count, 0⟩ } := by
    simp [inpyjama_saura_write, Nat.not_le.mpr hoff, Nat.not_lt.mpr hcount,
      copy_from_user_ok _ _ hsrc]
  have htl : (user_space_buffer.take count).length = count := by
    simp [Nat.min_eq_left hsrc]
  intro w
  have hw2 : w = _ := hw
  rw [hw2]
  refine ⟨rfl, ?_, ?_, ?_, ?_, rfl, rfl⟩
  · simp [hlen, Nat.min_eq_left hsrc]
    omega
  · rw [List.take_append_eq_append_take]
    simp [htl]
  · rw [List.drop_append_eq_append_drop]
    simp [htl]
  · intro i hi
    rw [List.getElem?_append_right (by omega), htl, List.getElem?_drop]
    congr 1
    omega

/-- C6 at a write of "ab" over the buffer holding "hello". -/
theorem write_success_effect_witness :
    ((padded (bytes "hello")).length = 128 ∧ 0 < 2 ∧ 2 ≤ 127 ∧ 2 ≤ (bytes "ab").length) ∧
    (let w := inpyjama_saura_write (padded (bytes "hello")) (bytes "ab") 2 0
     w.ret = (2 : Int) ∧
     w.user_message.length = 128 ∧
     w.user_message.take 2 = (bytes "ab").take 2 ∧
     w.user_message.drop 2 = (padded (bytes "hello")).drop 2 ∧
     (∀ i, 2 ≤ i → w.user_message[i]? = (padded (bytes "hello"))[i]?) ∧
     w.offset = 0 ∧
     w.copy = some ⟨2, 0⟩) :=
  ⟨by decide,
   write_success_effect (padded (bytes "hello")) (bytes "ab") 2 0
     (by decide) (by decide) (by decide) (by decide)⟩

/-! ## The read handler -/

/-- What `inpyjama_read` does once `strlen` is known and the cursor is at or
past the end of the string. -/
theorem inpyjama_read_end {user_message : List Byte} {len offset : Nat}
    (hstr : strlen user_message = some len) (hoff : len ≤ offset)
    (user_space_buffer : List Byte) (count : Nat) :
    inpyjama_read user_message user_space_buffer count offset =
      some { ret := 0
             user_message := user_message.set 0 0
             offset := offset
             user_space_buffer := user_space_buffer
             copy := none } := by
  simp [inpyjama_read, hstr, hoff]

/-- What `inpyjama_read` does once `strlen` is known and the cursor is before
the end of the string. -/
theorem inpyjama_read_data {user_message : List Byte} {len offset : Nat}
    (hstr : strlen user_message = some len) (hoff : offset < len)
    (user_space_buffer : List Byte) (count : Nat) :
    inpyjama_read user_message user_space_buffer count offset =
      some { ret := (len : Int)
             user_message := user_message
             offset := offset + len
             user_space_buffer := (copy_to_user user_space_buffer user_message len).2
             copy := some ⟨len, (copy_to_user user_space_buffer user_message len).1⟩ } := by
  simp [inpyjama_read, hstr, Nat.not_le.mpr hoff]

/-- The read handler never returns a negative value. -/
theorem inpyjama_read_ret_nonneg {user_message user_space_buffer : List Byte}
    {count offset : Nat} {r : ReadOut}
    (h : inpyjama_read user_message user_space_buffer count offset = some r) : 0 ≤ r.ret := by
  cases hstr : strlen user_message with
  | none => simp [inpyjama_read, hstr] at h
  | some len =>
    by_cases hoff : len ≤ offset
    · rw [inpyjama_read_end hstr hoff] at h
      cases h
      exact le_refl _
    · rw [inpyjama_read_data hstr (Nat.not_le.mp hoff)] at h
      cases h
      exact Int.ofNat_nonneg len

/-- C3. On a NUL-terminated buffer of string length `len`, a read with the
cursor at `len` or beyond returns 0, makes no `copy_to_user` call and leaves
the destination and the cursor as they were; the buffer keeps its size and its
string length is 0 afterwards. -/
theorem read_at_end (user_message user_space_buffer : List Byte) (count offset len : Nat)
    (hstr : strlen user_message = some len) (hoff : offset ≥ len) :
    ∃ r, inpyjama_read user_message user_space_buffer count offset = some r ∧
      r.ret = 0 ∧
      r.copy = none ∧
      r.user_space_buffer = user_space_buffer ∧
      r.offset = offset ∧
      r.user_message.length = user_message.length ∧
      strlen r.user_message = some 0 := by
  refine ⟨_, inpyjama_read_end hstr hoff user_space_buffer count, rfl, rfl, rfl, rfl, ?_, ?_⟩
  · simp
  · apply strlen_set_zero
    intro hnil
    rw [hnil] at hstr
    simp [strlen] at hstr

/-- C3 at the buffer holding "hello" with the cursor at 5. -/
theorem read_at_end_witness :
    (strlen (padded (bytes "hello")) = some 5 ∧ 5 ≥ 5) ∧
    ∃ r, inpyjama_read (padded (bytes "hello")) (List.replicate 8 0) 8 5 = some r ∧
      r.ret = 0 ∧
      r.copy = none ∧
      r.user_space_buffer = List.replicate 8 0 ∧
      r.offset = 5 ∧
      r.user_message.length = (padded (bytes "hello")).length ∧
      strlen r.user_message = some 0 :=
  ⟨by decide,
   read_at_end (padded (bytes "hello")) (List.replicate 8 0) 8 5 5 (by decide) (by decide)⟩

/-- C5. On a NUL-terminated buffer of string length `len`, a read with the
cursor below `len` returns `len`, sets the cursor to `offset + len` and leaves
the buffer unchanged. It asks `copy_to_user` for `len` bytes taken from index 0
of the buffer, whatever the cursor is: the destination afterwards is the
outcome of that copy, and when the destination has `len` accessible bytes its
first `len` bytes are the first `len` bytes of the buffer and the rest of it is
untouched. -/
theorem read_available (user_message user_space_buffer : List Byte) (count offset len : Nat)
    (hstr : strlen user_message = some len) (hoff : offset < len) :
    ∃ r, inpyjama_read user_message user_space_buffer count offset = some r ∧
      r.ret = (len : Int) ∧
      r.offset = offset + len ∧
      r.user_message = user_message ∧
      r.user_space_buffer = (copy_to_user user_space_buffer user_message len).2 ∧
      r.copy = some ⟨len, (copy_to_user user_space_buffer user_message len).1⟩ ∧
      (len ≤ user_space_buffer.length →
        r.copy = some ⟨len, 0⟩ ∧
        r.user_space_buffer.take len = user_message.take len ∧
        r.user_space_buffer.drop len = user_space_buffer.drop len) := by
  refine ⟨_, inpyjama_read_data hstr hoff user_space_buffer count, rfl, rfl, rfl, rfl, rfl, ?_⟩
  intro hdst
  have hlt : len < user_message.length := (strlen_spec hstr).1
  have htl : (user_message.take len).length = len := by
    simp [Nat.min_eq_left (Nat.le_of_lt hlt)]
  rw [copy_to_user_ok _ _ hdst]
  refine ⟨rfl, ?_, ?_⟩
  · rw [List.take_append_eq_append_take]
    simp [htl]
  · rw [List.drop_append_eq_append_drop]
    simp [htl]

/-- C5 at the buffer holding "hello" with the cursor at 2. -/
theorem read_available_witness :
    (strlen (padded (bytes "hello")) = some 5 ∧ 2 < 5) ∧
    ∃ r, inpyjama_read (padded (bytes "hello")) (List.replicate 8 0) 8 2 = some r ∧
      r.ret = ((5 : Nat) : Int) ∧
      r.offset = 2 + 5 ∧
      r.user_message = padded (bytes "hello") ∧
      r.user_space_buffer =
        (copy_to_user (List.replicate 8 0) (padded (bytes "hello")) 5).2 ∧
      r.copy = some ⟨5, (copy_to_user (List.replicate 8 0) (padded (bytes "hello")) 5).1⟩ ∧
      (5 ≤ (List.replicate 8 (0 : Byte)).length →
        r.copy = some ⟨5, 0⟩ ∧
        r.user_space_buffer.take 5 = (padded (bytes "hello")).take 5 ∧
        r.user_space_buffer.drop 5 = (List.replicate 8 0).drop 5) :=
  ⟨by decide,
   read_available (padded (bytes "hello")) (List.replicate 8 0) 8 2 5 (by decide) (by decide)⟩

/-- C4. On a NUL-terminated buffer, reads that follow one another with the
cursor the previous one left reach a call that returns 0 within two calls:
the first call returns 0, or it returns the string length `len > 0`, keeps the
buffer and leaves a cursor of at least `len`, and then the next call, whatever
its destination and count, returns 0. -/
theorem sequential_reads_terminate (user_message dst1 dst2 : List Byte)
    (count1 count2 offset len : Nat) (hstr : strlen user_message = some len) :
    ∃ r1, inpyjama_read user_message dst1 count1 offset = some r1 ∧
      (r1.ret = 0 ∨
       (r1.ret = (len : Int) ∧ 0 < len ∧
        strlen r1.user_message = some len ∧ r1.offset ≥ len ∧
        ∃ r2, inpyjama_read r1.user_message dst2 count2 r1.offset = some r2 ∧ r2.ret = 0)) := by
  by_cases hoff : len ≤ offset
  · exact ⟨_, inpyjama_read_end hstr hoff dst1 count1, Or.inl rfl⟩
  · have hlt : offset < len := Nat.not_le.mp hoff
    refine ⟨_, inpyjama_read_data hstr hlt dst1 count1, Or.inr ⟨rfl, by omega, hstr, ?_, ?_⟩⟩
    · exact Nat.le_add_left len offset
    · exact ⟨_, inpyjama_read_end hstr (Nat.le_add_left len offset) dst2 count2, rfl⟩

/-- C4 at the buffer holding "hello" with the cursor at 0. -/
theorem sequential_reads_terminate_witness :
    strlen (padded (bytes "hello")) = some 5 ∧
    ∃ r1, inpyjama_read (padded (bytes "hello")) (List.replicate 8 0) 8 0 = some r1 ∧
      (r1.ret = 0 ∨
       (r1.ret = ((5 : Nat) : Int) ∧ 0 < 5 ∧
        strlen r1.user_message = some 5 ∧ r1.offset ≥ 5 ∧
        ∃ r2, inpyjama_read r1.user_message (List.replicate 8 0) 8 r1.offset = some r2 ∧
          r2.ret = 0)) :=
  ⟨by decide,
   sequential_reads_terminate (padded (bytes "hello")) (List.replicate 8 0)
     (List.replicate 8 0) 8 8 0 5 (by decide)⟩

/-- C9, as amended. A read is bounded by the stored string and not by the
capacity of the caller: on a NUL-terminated 128-byte buffer of string length `len`
the value returned and the number of bytes copied into the destination are at
most `len`, which is at most 127, and are the same for every `count`; they are
at most `count` whenever `len ≤ count`. -/
theorem read_bounded_by_strlen (user_message user_space_buffer : List Byte)
    (count offset len : Nat) (hlen : user_message.length = 128)
    (hstr : strlen user_message = some len) :
    ∃ r, inpyjama_read user_message user_space_buffer count offset = some r ∧
      len ≤ 127 ∧
      r.ret ≤ (len : Int) ∧
      UserCopy.transferred r.copy ≤ len ∧
      (∀ count2, inpyjama_read user_message user_space_buffer count2 offset = some r) ∧
      (len ≤ count → r.ret ≤ (count : Int) ∧ UserCopy.transferred r.copy ≤ count) := by
  have hlt : len < user_message.length := (strlen_spec hstr).1
  have h127 : len ≤ 127 := by omega
  by_cases hoff : len ≤ offset
  · refine ⟨_, inpyjama_read_end hstr hoff user_space_buffer count, h127, ?_, ?_,
      fun count2 => inpyjama_read_end hstr hoff user_space_buffer count2, ?_⟩
    · exact Int.ofNat_nonneg len
    · exact Nat.zero_le len
    · intro _
      exact ⟨Int.ofNat_nonneg count, Nat.zero_le count⟩
  · have hl : offset < len := Nat.not_le.mp hoff
    refine ⟨_, inpyjama_read_data hstr hl user_space_buffer count, h127, le_refl _, ?_,
      fun count2 => inpyjama_read_data hstr hl user_space_buffer count2, ?_⟩
    · exact Nat.sub_le _ _
    · intro hc
      exact ⟨Int.ofNat_le.mpr hc, Nat.le_trans (Nat.sub_le _ _) hc⟩

/-- C9 as amended, at the buffer holding "hello" and a count of 6. -/
theorem read_bounded_by_strlen_witness :
    ((padded (bytes "hello")).length = 128 ∧ strlen (padded (bytes "hello")) = some 5) ∧
    ∃ r, inpyjama_read (padded (bytes "hello")) (List.replicate 8 0) 6 0 = some r ∧
      5 ≤ 127 ∧
      r.ret ≤ ((5 : Nat) : Int) ∧
      UserCopy.transferred r.copy ≤ 5 ∧
      (∀ count2, inpyjama_read (padded (bytes "hello")) (List.replicate 8 0) count2 0 = some r) ∧
      (5 ≤ 6 → r.ret ≤ ((6 : Nat) : Int) ∧ UserCopy.transferred r.copy ≤ 6) :=
  ⟨by decide,
   read_bounded_by_strlen (padded (bytes "hello")) (List.replicate 8 0) 6 0 5
     (by decide) (by decide)⟩

/-- C9, counterexample. With the string "hello" stored, a cursor of 0 and a
caller that asks for one byte (`count = 1`), the read copies 5 bytes into the
destination and returns 5. -/
theorem read_exceeds_count :
    strlen (padded (bytes "hello")) = some 5 ∧
    ∃ r, inpyjama_read (padded (bytes "hello")) (List.replicate 8 0) 1 0 = some r ∧
      r.ret = 5 ∧
      UserCopy.transferred r.copy = 5 ∧
      r.user_space_buffer = bytes "hello" ++ [0, 0, 0] ∧
      ¬ (r.ret ≤ ((1 : Nat) : Int)) ∧
      ¬ (UserCopy.transferred r.copy ≤ 1) := by
  refine ⟨by decide, _, rfl, ?_⟩
  decide

/-- C7, evaluated. With the string "hi" stored and a destination with no
accessible byte, `copy_to_user` reports both bytes as not copied, and the read
still returns 2 and moves the cursor to 2; no negative code is returned. -/
theorem read_ignores_copy_fault :
    strlen (padded (bytes "hi")) = some 2 ∧
    copy_to_user [] (padded (bytes "hi")) 2 = (2, []) ∧
    inpyjama_read (padded (bytes "hi")) [] 2 0 =
      some { ret := 2
             user_message := padded (bytes "hi")
             offset := 2
             user_space_buffer := []
             copy := some ⟨2, 2⟩ } := by
  decide

/-! ## Sequences of calls -/

theorem terminated_init : Terminated user_message_init := by
  constructor <;> decide

/-- A terminated buffer has a string length of at most 127. -/
theorem Terminated.strlen_le {m : List Byte} (h : Terminated m) :
    ∃ len, strlen m = some len ∧ len ≤ 127 :=
  strlen_of_nul h.2

/-- A write, accepted, rejected or cut short by a fault, keeps the invariant. -/
theorem Terminated.write {m : List Byte} (h : Terminated m) (src : List Byte)
    (count offset : Nat) : Terminated (inpyjama_saura_write m src count offset).user_message := by
  by_cases hoff : count ≤ offset
  · simpa [inpyjama_saura_write, hoff] using h
  · by_cases hc : count > 127
    · simpa [inpyjama_saura_write, hoff, hc] using h
    · have hum : (inpyjama_saura_write m src count offset).user_message
          = (copy_from_user m src count).2 := by
        simp only [inpyjama_saura_write, ge_iff_le, hoff, hc, if_false]
        split <;> rfl
      have hcm : count ≤ m.length := by rw [h.1]; omega
      have hl := copy_from_user_length m src hcm
      have hd := copy_from_user_drop m src count
      rw [hum]
      refine ⟨by rw [hl]; exact h.1, ?_⟩
      have h1 : ((copy_from_user m src count).2.drop count)[127 - count]? = some 0 := by
        rw [hd, List.getElem?_drop]
        have : count + (127 - count) = 127 := by omega
        rw [this]
        exact h.2
      rw [List.getElem?_drop] at h1
      have : count + (127 - count) = 127 := by omega
      rw [this] at h1
      exact h1

/-- A read is defined on a terminated buffer and keeps the invariant. -/
theorem Terminated.read {m : List Byte} (h : Terminated m) (dst : List Byte)
    (count offset : Nat) :
    ∃ r, inpyjama_read m dst count offset = some r ∧ Terminated r.user_message := by
  obtain ⟨len, hstr, _⟩ := h.strlen_le
  by_cases hoff : len ≤ offset
  · refine ⟨_, inpyjama_read_end hstr hoff dst count, ?_⟩
    refine ⟨by simpa using h.1, ?_⟩
    show (m.set 0 0)[127]? = some 0
    rw [List.getElem?_set_ne (by decide)]
    exact h.2
  · exact ⟨_, inpyjama_read_data hstr (Nat.not_le.mp hoff) dst count, h⟩

/-- Every call is defined on a terminated buffer and keeps the invariant. -/
theorem Terminated.step {m : List Byte} (h : Terminated m) (c : Call) :
    ∃ m2, step m c = some m2 ∧ Terminated m2 := by
  cases c with
  | read dst count offset =>
    obtain ⟨r, hr, ht⟩ := h.read dst count offset
    exact ⟨r.user_message, by simp [LearningLdd.step, hr], ht⟩
  | write src count offset =>
    exact ⟨_, rfl, h.write src count offset⟩

/-- Every sequence of calls is defined on a terminated buffer and keeps the
invariant. -/
theorem Terminated.run {m : List Byte} (h : Terminated m) (calls : List Call) :
    ∃ m2, run m calls = some m2 ∧ Terminated m2 := by
  induction calls generalizing m with
  | nil => exact ⟨m, rfl, h⟩
  | cons c rest ih =>
    obtain ⟨m1, h1, ht1⟩ := h.step c
    obtain ⟨m2, h2, ht2⟩ := ih ht1
    exact ⟨m2, by simp [LearningLdd.run, h1, h2], ht2⟩

/-- C8. Whatever sequence of read and write calls, with whatever arguments, is
made from module load on, every call is defined and the buffer it leaves has
128 bytes with a NUL at index 127, so it has a string length of at most 127. -/
theorem buffer_always_nul_terminated (calls : List Call) :
    ∃ m, run user_message_init calls = some m ∧
      m.length = 128 ∧ m[127]? = some 0 ∧
      ∃ len, strlen m = some len ∧ len ≤ 127 := by
  obtain ⟨m, hm, ht⟩ := terminated_init.run calls
  exact ⟨m, hm, ht.1, ht.2, ht.strlen_le⟩

/-! ## Write followed by read -/

/-- The string that starts at a NUL byte is empty. -/
theorem strlen_drop_of_nul {m : List Byte} {i : Nat} (h : m[i]? = some 0) :
    strlen (m.drop i) = some 0 := by
  have h0 : (m.drop i)[0]? = some 0 := by
    rw [List.getElem?_drop]
    exact h
  obtain ⟨len, hlen, hle⟩ := strlen_of_nul h0
  have : len = 0 := by omega
  rw [this] at hlen
  exact hlen

/-- The round trip where the old content does not get in the way: when the
buffer holds a NUL at index `count`, a write of `count` bytes without a NUL at
cursor 0 followed by a read at cursor 0 returns `count` and delivers the bytes
written, and the read after that returns 0 and empties the buffer. -/
theorem round_trip_of_nul (user_message src dst dst2 : List Byte) (count c1 c2 : Nat)
    (hnul : user_message[count]? = some 0)
    (h1 : 1 ≤ count) (h127 : count ≤ 127) (hsrc : count ≤ src.length)
    (hnz : ∀ b ∈ src.take count, b ≠ 0) (hdst : count ≤ dst.length) :
    (inpyjama_saura_write user_message src count 0).ret = (count : Int) ∧
    ∃ r, inpyjama_read (inpyjama_saura_write user_message src count 0).user_message dst c1 0
        = some r ∧
      r.ret = (count : Int) ∧
      r.user_space_buffer.take count = src.take count ∧
      r.offset = count ∧
      ∃ r2, inpyjama_read r.user_message dst2 c2 r.offset = some r2 ∧
        r2.ret = 0 ∧ strlen r2.user_message = some 0 := by
  have hw : inpyjama_saura_write user_message src count 0 =
      { ret := (count : Int)
        user_message := src.take count ++ user_message.drop count
        offset := 0
        copy := some ⟨count, 0⟩ } := by
    have hpos : ¬ count ≤ 0 := by omega
    simp [inpyjama_saura_write, hpos, Nat.not_lt.mpr h127, copy_from_user_ok _ _ hsrc]
  have htl : (src.take count).length = count := by
    simp [Nat.min_eq_left hsrc]
  have hstr : strlen (src.take count ++ user_message.drop count) = some count := by
    rw [strlen_append hnz, strlen_drop_of_nul hnul, htl]
    simp
  rw [hw]
  refine ⟨rfl, _, inpyjama_read_data hstr (by omega) dst c1, rfl, ?_, by simp, ?_⟩
  · show (copy_to_user dst (src.take count ++ user_message.drop count) count).2.take count
      = src.take count
    rw [copy_to_user_ok _ _ hdst, List.take_append_eq_append_take,
      List.take_append_eq_append_take]
    simp [htl, List.take_take]
  · have hend : count ≤ 0 + count := by omega
    refine ⟨_, inpyjama_read_end hstr hend dst2 c2, rfl, ?_⟩
    apply strlen_set_zero
    intro hnil
    rw [hnil] at hstr
    simp [strlen] at hstr

/-- C10. On the all-zero buffer of module load, a write at cursor 0 of `count`
bytes, `1 ≤ count ≤ 127`, none of them NUL, from an accessible source, followed
by a read at cursor 0 into an accessible destination, returns `count` and
delivers the bytes written; the read that follows with the advanced cursor
returns 0 and leaves the buffer empty. -/
theorem fresh_round_trip (src dst dst2 : List Byte) (count c1 c2 : Nat)
    (h1 : 1 ≤ count) (h127 : count ≤ 127) (hsrc : count ≤ src.length)
    (hnz : ∀ b ∈ src.take count, b ≠ 0) (hdst : count ≤ dst.length) :
    (inpyjama_saura_write user_message_init src count 0).ret = (count : Int) ∧
    ∃ r, inpyjama_read (inpyjama_saura_write user_message_init src count 0).user_message
        dst c1 0 = some r ∧
      r.ret = (count : Int) ∧
      r.user_space_buffer.take count = src.take count ∧
      r.offset = count ∧
      ∃ r2, inpyjama_read r.user_message dst2 c2 r.offset = some r2 ∧
        r2.ret = 0 ∧ strlen r2.user_message = some 0 := by
  have hnul : user_message_init[count]? = some 0 := by
    have hlt : count < 128 := by omega
    show (List.replicate 128 (0 : Byte))[count]? = some 0
    rw [List.getElem?_replicate]
    simp [hlt]
  exact round_trip_of_nul user_message_init src dst dst2 count c1 c2 hnul h1 h127 hsrc hnz hdst

/-- C10 at a write of "hello" after module load. -/
theorem fresh_round_trip_witness :
    (1 ≤ 5 ∧ 5 ≤ 127 ∧ 5 ≤ (bytes "hello").length ∧
      (∀ b ∈ (bytes "hello").take 5, b ≠ 0) ∧ 5 ≤ (List.replicate 8 (0 : Byte)).length) ∧
    ((inpyjama_saura_write user_message_init (bytes "hello") 5 0).ret = ((5 : Nat) : Int) ∧
    ∃ r, inpyjama_read (inpyjama_saura_write user_message_init (bytes "hello") 5 0).user_message
        (List.replicate 8 0) 8 0 = some r ∧
      r.ret = ((5 : Nat) : Int) ∧
      r.user_space_buffer.take 5 = (bytes "hello").take 5 ∧
      r.offset = 5 ∧
      ∃ r2, inpyjama_read r.user_message (List.replicate 8 0) 8 r.offset = some r2 ∧
        r2.ret = 0 ∧ strlen r2.user_message = some 0) :=
  ⟨by decide,
   fresh_round_trip (bytes "hello") (List.replicate 8 0) (List.replicate 8 0) 5 8 8
     (by decide) (by decide) (by decide) (by decide) (by decide)⟩

/-- C1, evaluated. From module load, writing "hello", reading it and reading
again at the end leaves the emptied buffer: NUL at index 0, "ello" behind it.
A write of the two bytes "ab" at cursor 0 into that buffer returns 2, and the
read at cursor 0 that follows returns 5 and delivers "abllo", not 2 and "ab":
the write stores no NUL behind its data and the old bytes are read back. -/
theorem write_read_stale_tail :
    run user_message_init
        [.write (bytes "hello") 5 0, .read (List.replicate 8 0) 8 0,
         .read (List.replicate 8 0) 8 5]
      = some ((padded (bytes "hello")).set 0 0) ∧
    strlen ((padded (bytes "hello")).set 0 0) = some 0 ∧
    inpyjama_saura_write ((padded (bytes "hello")).set 0 0) (bytes "ab") 2 0 =
      { ret := 2, user_message := padded (bytes "abllo"), offset := 0,
        copy := some ⟨2, 0⟩ } ∧
    inpyjama_read (padded (bytes "abllo")) (List.replicate 8 0) 8 0 =
      some { ret := 5
             user_message := padded (bytes "abllo")
             offset := 5
             user_space_buffer := bytes "abllo" ++ [0, 0, 0]
             copy := some ⟨5, 0⟩ } := by
  decide

end LearningLdd
